import Mathlib

/-!
Shallow embedding of the persistent tag-cache subsystem (`IndexedDBCache`)
of the LITD userscript, together with proofs of the specified properties.

The store contents are modelled as a list of records with unique keys
(IndexedDB enforces key uniqueness via the key path `key`).  Asynchronous
methods are modelled by their observable effect: the value the returned
promise settles with (for `set`, an `Except` distinguishing resolution
from rejection) and the quiescent store contents afterwards.  `Date.now()`
is passed in as an explicit `now : Nat` (milliseconds since the epoch).
-/

namespace LITD

/-- The cache-relevant fields of the `CONFIG` constant object of the script.
Operations take the configuration as a parameter so that properties
quantified over `maxEntries` / the expiry window can be stated; the
script itself always reads the global `CONFIG`. -/
structure Config where
  CACHE_EXPIRY_MS : Nat
  MAX_CACHE_SIZE : Nat
deriving Repr, DecidableEq

/-- The script constants: `CACHE_EXPIRY_MS = 7 days`, `MAX_CACHE_SIZE = 5000`. -/
def CONFIG : Config :=
  { CACHE_EXPIRY_MS := 7 * 24 * 60 * 60 * 1000, MAX_CACHE_SIZE := 5000 }

/-! ### JavaScript string primitives used by the script -/

/-- The JavaScript `\s` character class (also the set removed by
`String.prototype.trim`): space, `\t`, `\n`, `\v`, `\f`, `\r`, NBSP,
Ogham space mark, the U+2000–U+200A range, line/paragraph separator,
narrow NBSP, medium mathematical space, ideographic space, and BOM. -/
def jsIsWs (c : Char) : Bool :=
  let n := c.toNat
  n = 32 || n = 9 || n = 10 || n = 11 || n = 12 || n = 13 ||
  n = 0xa0 || n = 0x1680 || (0x2000 ≤ n && n ≤ 0x200a) ||
  n = 0x2028 || n = 0x2029 || n = 0x202f || n = 0x205f ||
  n = 0x3000 || n = 0xfeff

/-- Character-level engine of `replace(/\s+/g, '_')`: each maximal run of
whitespace characters becomes a single `'_'`.  The boolean records whether
the previous character was part of a whitespace run. -/
def collapseWsAux : Bool → List Char → List Char
  | _, [] => []
  | prevWs, c :: cs =>
    if jsIsWs c then
      if prevWs then collapseWsAux true cs
      else '_' :: collapseWsAux true cs
    else c :: collapseWsAux false cs

/-- The transform `s.replace(/\s+/g, _)` (underscore replacement) as used
on tag names. -/
def jsReplaceWsUnderscore (s : String) : String :=
  String.mk (collapseWsAux false s.data)

/-- Character-level engine of `String.prototype.trim`. -/
def jsTrimList (cs : List Char) : List Char :=
  (((cs.dropWhile jsIsWs).reverse).dropWhile jsIsWs).reverse

/-- The transform `s.trim()`. -/
def jsTrim (s : String) : String :=
  String.mk (jsTrimList s.data)

/-! ### Tag extraction (`parseTagData`) -/

/-- One compressed tag, as stored in a cache record. -/
structure TagEntry where
  name : String
  confidence : String
deriving Repr, DecidableEq

/-- What the selectors in `parseTagData` can observe of one `tbody tr` row:
the text content of the tag-name anchor
(`a.text-sky-600.hover:text-sky-500.mr-4`) if such an anchor is present,
and the text content of the confidence cell
(`td.text-gray-400.text-right`) if such a cell is present. -/
structure TagRow where
  link : Option String
  confidence : Option String
deriving Repr, DecidableEq

/-- Outcome of running `DOMParser().parseFromString` plus the row query on
the raw HTML string.  `failed` is the case in which that DOM work throws,
which the source catches (returning `[]`). -/
inductive DomParseOutcome where
  | parsed : List TagRow → DomParseOutcome
  | failed : DomParseOutcome
deriving Repr, DecidableEq

/-- The row-mapping function inside `parseTagData`:
`if (!link || !confidence) return null;` then
`{ name: link.textContent.replace(/\s+/g, '_').trim(),
   confidence: confidence.textContent.trim() }`. -/
def rowToTag (row : TagRow) : Option TagEntry :=
  match row.link, row.confidence with
  | some l, some c => some { name := jsTrim (jsReplaceWsUnderscore l), confidence := jsTrim c }
  | _, _ => none

/-- The `rows.map(...).filter(Boolean)` pipeline of `parseTagData`
(`filter(Boolean)` drops exactly the `null`s produced for incomplete
rows; any constructed entry object is truthy and therefore kept). -/
def extractTags (rows : List TagRow) : List TagEntry :=
  rows.filterMap rowToTag

/-- The method `IndexedDBCache.parseTagData`: on a DOM-parse failure the `catch`
returns `[]`; otherwise every row is mapped and incomplete rows
are dropped. -/
def parseTagData : DomParseOutcome → List TagEntry
  | .parsed rows => extractTags rows
  | .failed => []

/-! ### `calculateSize` (byte size of `JSON.stringify(tags)`) -/

/-- Lowercase hexadecimal digit, for `\u00xx` escapes. -/
def hexDigit (n : Nat) : Char :=
  if n < 10 then Char.ofNat (48 + n) else Char.ofNat (87 + n)

/-- How `JSON.stringify` escapes a single character inside a string. -/
def jsonEscapeChar (c : Char) : List Char :=
  if c = '"' then ['\\', '"']
  else if c = '\\' then ['\\', '\\']
  else if c = '\x08' then ['\\', 'b']
  else if c = '\t' then ['\\', 't']
  else if c = '\n' then ['\\', 'n']
  else if c = '\x0c' then ['\\', 'f']
  else if c = '\r' then ['\\', 'r']
  else if c.toNat < 0x20 then
    ['\\', 'u', '0', '0', hexDigit (c.toNat / 16), hexDigit (c.toNat % 16)]
  else [c]

/-- Serialization of a string value, as `JSON.stringify` renders it. -/
def jsonString (s : String) : String :=
  "\"" ++ String.mk (s.data.foldr (fun c acc => jsonEscapeChar c ++ acc) []) ++ "\""

/-- Serialization of one tag object (property order follows the
object literal in the source). -/
def jsonTagEntry (t : TagEntry) : String :=
  "\x7b\"name\":" ++ jsonString t.name ++ ",\"confidence\":" ++ jsonString t.confidence ++ "\x7d"

/-- Serialization of the tag array. -/
def jsonStringifyTags (ts : List TagEntry) : String :=
  "[" ++ String.intercalate "," (ts.map jsonTagEntry) ++ "]"

/-- The method `IndexedDBCache.calculateSize`: `new Blob([JSON.stringify(data)]).size`,
the UTF-8 byte length of the JSON serialization. -/
def calculateSize (ts : List TagEntry) : Nat :=
  (jsonStringifyTags ts).utf8ByteSize

/-! ### `generateKey` -/

/-- Wrap an integer to a signed 32-bit value (JavaScript `x & x` /
`ToInt32`), landing in `[-2^31, 2^31)`. -/
def toInt32 (n : Int) : Int :=
  (n + 2 ^ 31) % 2 ^ 32 - 2 ^ 31

/-- UTF-16 code units of one character, as `charCodeAt` walks them
(characters above U+FFFF occupy a surrogate pair). -/
def charCodeUnits (c : Char) : List Nat :=
  if c.toNat < 0x10000 then [c.toNat]
  else [0xd800 + (c.toNat - 0x10000) / 0x400, 0xdc00 + (c.toNat - 0x10000) % 0x400]

/-- The UTF-16 code-unit sequence of a string, i.e. the values
`url.charCodeAt(0) .. url.charCodeAt(url.length - 1)`. -/
def utf16Units (s : String) : List Nat :=
  s.data.foldr (fun c acc => charCodeUnits c ++ acc) []

/-- One loop iteration of `generateKey`:
`hash = ((hash << 5) - hash) + char; hash = hash & hash;`.
`hash << 5` wraps the shifted value to 32 bits; the subtraction and the
addition of the code unit are exact; `hash & hash` wraps the result back
to a signed 32-bit integer. -/
def hashStep (h : Int) (code : Nat) : Int :=
  toInt32 (toInt32 (h * 32) - h + code)

/-- The rolling hash accumulated over all code units, starting from 0. -/
def hashString (url : String) : Int :=
  (utf16Units url).foldl hashStep 0

/-- The method `IndexedDBCache.generateKey`, returning the template
string `litd_${Math.abs(hash)}`. -/
def generateKey (url : String) : String :=
  "litd_" ++ toString (hashString url).natAbs

/-! ### The record store -/

/-- A stored cache record (the `keyPath` of the object store is `key`).
The source also stores `timestampFormatted`, a human-readable rendering
of `timestamp` that is only interpolated into a log message and never
read back; it carries no information beyond `timestamp` and is omitted. -/
structure CacheRecord where
  key : String
  tags : List TagEntry
  timestamp : Nat
  size : Nat
deriving Repr, DecidableEq

/-- The contents of the `tagCache` object store.  The list order is the
bookkeeping order of the model; all observable behaviour below is
invariant under permutation because lookups go through `key` and the
eviction scan sorts by `(timestamp, key)` itself. -/
abbrev Store := List CacheRecord

/-- The request `store.get(key)` (the IndexedDB request result: the record stored
under `key`, if any). -/
def idbGet (s : Store) (key : String) : Option CacheRecord :=
  s.find? (fun r => r.key == key)

/-- The request `store.put(record)`: upsert by key (replace semantics). -/
def idbPut (s : Store) (r : CacheRecord) : Store :=
  s.filter (fun r' => r'.key != r.key) ++ [r]

/-- The request `store.delete(key)`. -/
def idbDelete (s : Store) (key : String) : Store :=
  s.filter (fun r => r.key != key)

/-- Byte-wise comparison of keys, breaking `timestamp` ties in the
order an IndexedDB index cursor yields records with equal index values
(ascending primary key). -/
def keyLeAux : List Char → List Char → Bool
  | [], _ => true
  | _ :: _, [] => false
  | a :: as, b :: bs =>
    if a.toNat < b.toNat then true
    else if b.toNat < a.toNat then false
    else keyLeAux as bs

/-- Cursor order of the `timestamp` index: ascending timestamp, equal
timestamps ordered by primary key. -/
def cursorLE (a b : CacheRecord) : Prop :=
  a.timestamp < b.timestamp ∨ (a.timestamp = b.timestamp ∧ keyLeAux a.key.data b.key.data = true)

instance : DecidableRel cursorLE := fun a b => by
  unfold cursorLE; infer_instance

/-- The cursor walk `index.openCursor(null, next)` on the `timestamp` index: the
records of the store, oldest first. -/
def iterateByTimestamp (s : Store) : List CacheRecord :=
  List.insertionSort cursorLE s

/-! ### The cache methods -/

/-- The expiry test `Date.now() - record.timestamp > CONFIG.CACHE_EXPIRY_MS`
(computed in ℤ: a record stamped in the future has a negative age and is
never expired, as in JavaScript). -/
def isExpired (cfg : Config) (now : Nat) (r : CacheRecord) : Prop :=
  (now : Int) - (r.timestamp : Int) > (cfg.CACHE_EXPIRY_MS : Int)

instance (cfg : Config) (now : Nat) (r : CacheRecord) : Decidable (isExpired cfg now r) := by
  unfold isExpired; infer_instance

/-- The method `IndexedDBCache.get(key)`: the value the promise resolves with
(`null` or the stored `tags`) together with the store afterwards (an
expired record is deleted as a side effect of the read). -/
def get (cfg : Config) (now : Nat) (s : Store) (key : String) :
    Option (List TagEntry) × Store :=
  match idbGet s key with
  | none => (none, s)
  | some result =>
    if isExpired cfg now result then (none, idbDelete s key)
    else (some result.tags, s)

/-- The `toDelete` list accumulated inside `cleanupOldEntries` by
`allEntries.forEach((record, index) => ...)`: an expired record is marked;
otherwise, when the snapshot exceeds `MAX_CACHE_SIZE`, records at
positions below `totalCount - MAX_CACHE_SIZE` are marked.  `total` is
`totalCount` (the snapshot length) and the extra `Nat` argument is the
running `index`. -/
def markDeletionsAux (cfg : Config) (now : Nat) (total : Nat) :
    Nat → List CacheRecord → List String
  | _, [] => []
  | i, r :: rest =>
    if isExpired cfg now r then
      r.key :: markDeletionsAux cfg now total (i + 1) rest
    else if total > cfg.MAX_CACHE_SIZE ∧ i < total - cfg.MAX_CACHE_SIZE then
      r.key :: markDeletionsAux cfg now total (i + 1) rest
    else
      markDeletionsAux cfg now total (i + 1) rest

/-- The full set of keys marked for deletion by a sweep over store `s`:
the cursor collects `allEntries` oldest first, then the combined
expiry/capacity marking pass runs over that snapshot. -/
def toDeleteKeys (cfg : Config) (now : Nat) (s : Store) : List String :=
  let allEntries := iterateByTimestamp s
  markDeletionsAux cfg now allEntries.length 0 allEntries

/-- The method `IndexedDBCache.cleanupOldEntries`: the store after the sweep — every
marked key is deleted (each `store.delete` is independent and
idempotent). -/
def cleanupOldEntries (cfg : Config) (now : Nat) (s : Store) : Store :=
  s.filter (fun r => !((toDeleteKeys cfg now s).contains r.key))

/-- Storage-layer faults of a write. -/
inductive DBErr where
  | putError
deriving Repr, DecidableEq

/-- Observable outcome of `IndexedDBCache.set`: how the promise returned
to the caller settles, and the quiescent store afterwards. -/
structure SetResult where
  outcome : Except DBErr Unit
  store : Store
deriving Repr

/-- The record constructed by `set` (with `timestamp = Date.now()`). -/
def setRecord (now : Nat) (key : String) (tags : List TagEntry) : CacheRecord :=
  { key := key, tags := tags, timestamp := now, size := calculateSize tags }

/-- The method `IndexedDBCache.set(key, htmlResponse)`.  `putFails` says whether the
underlying `store.put` request errors.  With no extractable tags the
method returns early (nothing stored).  On a successful put the promise
resolves and `transaction.oncomplete` runs the eviction sweep, so the
quiescent store is the swept post-put store.  On a put error the handler
calls `reject(request.error)`; because the promise is `return`ed (not
awaited) inside the `try`, the surrounding `catch` cannot intercept that
rejection and the promise `set` returned to its caller rejects, while the
aborted transaction leaves the store unchanged. -/
def set (cfg : Config) (now : Nat) (putFails : Bool) (s : Store) (key : String)
    (htmlResponse : DomParseOutcome) : SetResult :=
  let tags := parseTagData htmlResponse
  if tags.length = 0 then
    { outcome := Except.ok (), store := s }
  else if putFails then
    { outcome := Except.error DBErr.putError, store := s }
  else
    { outcome := Except.ok ()
      store := cleanupOldEntries cfg now (idbPut s (setRecord now key tags)) }

/-! ### `getStats` -/

/-- A dynamically-typed JavaScript field value, needed because `getStats`
returns `totalSizeKB` as a *string* on the success path and as the
*number* `0` from its error fallbacks. -/
inductive JsVal where
  | str : String → JsVal
  | num : Nat → JsVal
deriving Repr, DecidableEq

/-- The object `getStats` resolves with. -/
structure Stats where
  entries : Nat
  totalSizeKB : JsVal
  oldestEntryAge : Nat
deriving Repr, DecidableEq

/-- The `totalSize` accumulated by the stats cursor: `totalSize += record.size`. -/
def totalSizeOf (s : Store) : Nat :=
  s.foldl (fun acc r => acc + r.size) 0

/-- The `oldestEntry` accumulated by the stats cursor, starting from
`Date.now()`: `oldestEntry = Math.min(oldestEntry, record.timestamp)`. -/
def oldestOf (now : Nat) (s : Store) : Nat :=
  s.foldl (fun acc r => min acc r.timestamp) now

/-- Two-digit zero-padded rendering of `n % 100`. -/
def pad2 (n : Nat) : String :=
  if n < 10 then "0" ++ toString n else toString n

/-- The rendering `(totalSize / 1024).toFixed(2)`: the decimal nearest `totalSize/1024`
in hundredths, ties rounded up, printed with exactly two decimals. -/
def toFixed2KB (totalSize : Nat) : String :=
  let n := (200 * totalSize + 1024) / 2048
  toString (n / 100) ++ "." ++ pad2 (n % 100)

/-- The method `IndexedDBCache.getStats` (success path): a full scan accumulating
count, byte total and minimum timestamp. -/
def getStats (now : Nat) (s : Store) : Stats :=
  { entries := s.length
    totalSizeKB := JsVal.str (toFixed2KB (totalSizeOf s))
    oldestEntryAge := (now - oldestOf now s) / (1000 * 60 * 60 * 24) }

/-- The value both error fallbacks of `getStats` resolve with:
`{ entries: 0, totalSizeKB: 0, oldestEntryAge: 0 }` — note the numeric
`totalSizeKB`. -/
def getStatsFallback : Stats :=
  { entries := 0, totalSizeKB := JsVal.num 0, oldestEntryAge := 0 }

/-! ## Helper lemmas about the string primitives -/

lemma mem_collapseWsAux {c : Char} : ∀ (b : Bool) (cs : List Char),
    c ∈ collapseWsAux b cs → jsIsWs c = false := by
  intro b cs
  induction cs generalizing b with
  | nil => intro h; cases h
  | cons d ds ih =>
    intro h
    by_cases hd : jsIsWs d
    · by_cases hb : b
      · subst hb
        simpa [collapseWsAux, hd] using ih true (by simpa [collapseWsAux, hd] using h)
      · simp only [Bool.not_eq_true] at hb
        subst hb
        rcases (by simpa [collapseWsAux, hd] using h : c = '_' ∨ c ∈ collapseWsAux true ds) with
          rfl | h'
        · decide
        · exact ih true h'
    · rcases (by simpa [collapseWsAux, hd] using h : c = d ∨ c ∈ collapseWsAux false ds) with
        rfl | h'
      · simpa using hd
      · exact ih false h'

lemma dropWhile_jsIsWs_eq_self {cs : List Char} (h : ∀ c ∈ cs, jsIsWs c = false) :
    cs.dropWhile jsIsWs = cs := by
  cases cs with
  | nil => rfl
  | cons d ds =>
    rw [List.dropWhile_cons, if_neg]
    simp [h d (List.mem_cons_self d ds)]

lemma jsTrimList_eq_self {cs : List Char} (h : ∀ c ∈ cs, jsIsWs c = false) :
    jsTrimList cs = cs := by
  unfold jsTrimList
  rw [dropWhile_jsIsWs_eq_self h, dropWhile_jsIsWs_eq_self, List.reverse_reverse]
  intro c hc
  exact h c (List.mem_reverse.mp hc)

lemma mem_jsTrimList {c : Char} {cs : List Char} (h : c ∈ jsTrimList cs) : c ∈ cs := by
  unfold jsTrimList at h
  rw [List.mem_reverse] at h
  have h1 := (cs.dropWhile jsIsWs).reverse.dropWhile_sublist jsIsWs
  have h2 : c ∈ (cs.dropWhile jsIsWs).reverse := h1.mem h
  rw [List.mem_reverse] at h2
  exact (cs.dropWhile_sublist jsIsWs).mem h2

/-! ## Claims about the response compressor (C6, C7) -/

/-- Claim C6 counterexample: on a row whose anchor text is empty and
whose confidence cell text carries surrounding whitespace, the compressor
retains an entry with an empty name and stores the confidence trimmed,
so the claim as stated (only non-empty names retained, confidence
preserved exactly as supplied) is false. -/
theorem C6_counterexample :
    parseTagData (.parsed [{ link := some "", confidence := some " 0.9 " }])
      = [{ name := "", confidence := "0.9" }]
    ∧ ¬ (∀ e ∈ parseTagData (.parsed [{ link := some "", confidence := some " 0.9 " }]),
          e.name ≠ "" ∧ e.confidence = " 0.9 ") := by
  constructor
  · rfl
  · intro h
    have := h { name := "", confidence := "0.9" } (by decide)
    exact this.1 rfl

lemma extractTags_length (rows : List TagRow) :
    (extractTags rows).length
      = (rows.filter (fun row => row.link.isSome && row.confidence.isSome)).length := by
  induction rows with
  | nil => rfl
  | cons row rest ih =>
    obtain ⟨l, c⟩ := row
    cases l <;> cases c <;>
      simp only [extractTags, List.filterMap_cons, List.filter_cons] at ih ⊢ <;>
      simp [rowToTag, ih, List.length_cons]

/-- Claim C6 (amended): every `TagEntry` produced by the compressor has a
name in which every maximal whitespace run of the source anchor text —
internal, leading or trailing — has been collapsed to a single underscore,
so the name contains no whitespace at all and trimming it is a no-op, and
its confidence is the cell text trimmed of leading and trailing
whitespace; conversely an entry is retained for every row with both
cells — even when the resulting name is empty — namely the one built
from the collapsed-then-trimmed anchor text and the trimmed cell text,
and exactly one entry is produced per such row. -/
theorem C6_amended (rows : List TagRow) :
    (∀ e ∈ parseTagData (.parsed rows),
        (∀ c ∈ e.name.data, jsIsWs c = false)
        ∧ jsTrim e.name = e.name
        ∧ ∃ row ∈ rows, ∃ l c, row.link = some l ∧ row.confidence = some c
            ∧ e.name = jsTrim (jsReplaceWsUnderscore l) ∧ e.confidence = jsTrim c)
    ∧ (∀ row ∈ rows, ∀ l c, row.link = some l → row.confidence = some c →
        ({ name := jsTrim (jsReplaceWsUnderscore l), confidence := jsTrim c } : TagEntry)
          ∈ parseTagData (.parsed rows))
    ∧ (parseTagData (.parsed rows)).length
        = (rows.filter (fun row => row.link.isSome && row.confidence.isSome)).length := by
  refine ⟨?_, ?_, extractTags_length rows⟩
  · intro e he
    have he' : e ∈ rows.filterMap rowToTag := he
    rw [List.mem_filterMap] at he'
    obtain ⟨row, hrow, htag⟩ := he'
    obtain ⟨l, c⟩ := row
    cases l with
    | none => simp [rowToTag] at htag
    | some l =>
      cases c with
      | none => simp [rowToTag] at htag
      | some c =>
        simp only [rowToTag, Option.some.injEq] at htag
        have hname : e.name = jsTrim (jsReplaceWsUnderscore l) := by rw [← htag]
        have hnows : ∀ ch ∈ e.name.data, jsIsWs ch = false := by
          intro ch hch
          rw [hname] at hch
          exact mem_collapseWsAux false l.data (mem_jsTrimList hch)
        refine ⟨hnows, ?_, ⟨l, some c⟩, hrow, l, c, rfl, rfl, hname, by rw [← htag]⟩
        show String.mk (jsTrimList e.name.data) = e.name
        rw [jsTrimList_eq_self hnows]
  · intro row hrow l c hl hc
    refine List.mem_filterMap.mpr ⟨row, hrow, ?_⟩
    obtain ⟨lo, co⟩ := row
    have hl' : lo = some l := hl
    have hc' : co = some c := hc
    subst hl'
    subst hc'
    rfl

/-- Claim C6 amended witness at a concrete row whose anchor text is empty
and whose confidence cell carries surrounding whitespace: the row is
retained as the entry with empty name and trimmed confidence, that entry
satisfies the shape guarantees, and the output has exactly one entry for
the one complete row. -/
theorem C6_amended_witness :
    ({ link := some "", confidence := some " 0.9 " } : TagRow).link = some ""
    ∧ ({ link := some "", confidence := some " 0.9 " } : TagRow).confidence = some " 0.9 "
    ∧ ({ name := "", confidence := "0.9" } : TagEntry)
        ∈ parseTagData (.parsed [{ link := some "", confidence := some " 0.9 " }])
    ∧ (∀ ch ∈ ("" : String).data, jsIsWs ch = false)
    ∧ jsTrim "" = ""
    ∧ (parseTagData (.parsed [{ link := some "", confidence := some " 0.9 " }])).length
        = ([({ link := some "", confidence := some " 0.9 " } : TagRow)].filter
            (fun row => row.link.isSome && row.confidence.isSome)).length := by
  have h := C6_amended [{ link := some "", confidence := some " 0.9 " }]
  refine ⟨rfl, rfl, ?_, ?_, ?_, h.2.2⟩
  · have hm := h.2.1 { link := some "", confidence := some " 0.9 " } (by decide)
      "" " 0.9 " rfl rfl
    have he : ({ name := jsTrim (jsReplaceWsUnderscore ""), confidence := jsTrim " 0.9 " }
        : TagEntry) = { name := "", confidence := "0.9" } := by decide
    exact he ▸ hm
  · exact (h.1 { name := "", confidence := "0.9" } (by decide)).1
  · exact (h.1 { name := "", confidence := "0.9" } (by decide)).2.1

/-- Claim C7: the compressor yields exactly one entry per row having both
a tag-name link and a confidence cell; a row missing either is skipped
without affecting the entries produced for the other rows; and when the
DOM parse of the raw input fails, the result is the empty sequence
(the `catch` returns `[]` instead of throwing). -/
theorem C7_row_extraction :
    (∀ rows : List TagRow,
      (parseTagData (.parsed rows)).length
        = (rows.filter (fun row => row.link.isSome && row.confidence.isSome)).length)
    ∧ (∀ (pre post : List TagRow) (bad : TagRow),
        bad.link = none ∨ bad.confidence = none →
        parseTagData (.parsed (pre ++ bad :: post)) = parseTagData (.parsed (pre ++ post)))
    ∧ parseTagData .failed = [] := by
  have hbad : ∀ bad : TagRow, bad.link = none ∨ bad.confidence = none →
      rowToTag bad = none := by
    rintro ⟨l, c⟩ (h | h)
    · cases h; rfl
    · cases h; cases l <;> rfl
  refine ⟨?_, ?_, rfl⟩
  · intro rows
    induction rows with
    | nil => rfl
    | cons row rest ih =>
      obtain ⟨l, c⟩ := row
      cases l <;> cases c <;>
        simp only [parseTagData, extractTags, List.filterMap_cons, List.filter_cons] at ih ⊢ <;>
        simp [rowToTag, ih, List.length_cons]
  · intro pre post bad h
    show (pre ++ bad :: post).filterMap rowToTag = (pre ++ post).filterMap rowToTag
    rw [List.filterMap_append, List.filterMap_append, List.filterMap_cons, hbad bad h]

/-- Claim C7 witness: a row with no link is skipped and does not disturb
the other rows. -/
theorem C7_row_extraction_witness :
    (({ link := none, confidence := some "x" } : TagRow).link = none
      ∨ ({ link := none, confidence := some "x" } : TagRow).confidence = none)
    ∧ parseTagData (.parsed
        [{ link := some "a", confidence := some "1" },
         { link := none, confidence := some "x" }])
      = parseTagData (.parsed [{ link := some "a", confidence := some "1" }]) :=
  ⟨Or.inl rfl,
    C7_row_extraction.2.1 [{ link := some "a", confidence := some "1" }] []
      { link := none, confidence := some "x" } (Or.inl rfl)⟩

/-! ## Claim about error containment of `set` (C2) -/

/-- Claim C2 evaluated at a failing input: when the underlying put
request errors, the promise returned by `set` settles by *rejecting*
with the storage error (the rejection of the inner promise is adopted
after the method body has already returned, bypassing its `catch`), so
`set` is not resolve-only as the claim states. -/
theorem C2_set_rejects_on_put_failure :
    (set CONFIG 0 true [] "litd_1"
        (.parsed [{ link := some "tag", confidence := some "0.9" }])).outcome
      = Except.error DBErr.putError := rfl

/-! ## Helper lemmas about the record store -/

lemma str_contains_iff {l : List String} {a : String} : l.contains a = true ↔ a ∈ l :=
  List.elem_iff

lemma find?_key_append_singleton {pre : List CacheRecord} {r : CacheRecord}
    (h : ∀ x ∈ pre, x.key ≠ r.key) :
    List.find? (fun x => x.key == r.key) (pre ++ [r]) = some r := by
  induction pre with
  | nil => simp [List.find?_cons]
  | cons a t ih =>
    rw [List.cons_append, List.find?_cons]
    have ha : (a.key == r.key) = false := by
      simpa using h a (List.mem_cons_self a t)
    rw [ha]
    exact ih (fun x hx => h x (List.mem_cons_of_mem a hx))

lemma idbGet_idbDelete (s : Store) (key : String) : idbGet (idbDelete s key) key = none := by
  apply List.find?_eq_none.mpr
  intro x hx
  rw [idbDelete, List.mem_filter] at hx
  have := hx.2
  simp only [bne_iff_ne, ne_eq] at this
  simp [this]

lemma mem_set_store {cfg : Config} {now : Nat} {pf : Bool} {s : Store} {key : String}
    {raw : DomParseOutcome} {r : CacheRecord}
    (hr : r ∈ (set cfg now pf s key raw).store) :
    r ∈ s ∨ (r = setRecord now key (parseTagData raw) ∧ parseTagData raw ≠ []) := by
  simp only [set] at hr
  by_cases h0 : (parseTagData raw).length = 0
  · rw [if_pos h0] at hr
    exact Or.inl hr
  · rw [if_neg h0] at hr
    by_cases hpf : pf = true
    · simp only [if_pos hpf] at hr
      exact Or.inl hr
    · simp only [if_neg hpf] at hr
      rw [cleanupOldEntries] at hr
      have hr1 := (List.mem_filter.mp hr).1
      rw [idbPut, List.mem_append] at hr1
      rcases hr1 with h | h
      · exact Or.inl (List.mem_filter.mp h).1
      · rcases List.mem_singleton.mp h with rfl
        exact Or.inr ⟨rfl, fun he => h0 (by rw [he]; rfl)⟩

lemma idbGet_cleanup_idbPut {cfg : Config} {now : Nat} {s : Store} {rec : CacheRecord}
    (hkeep : rec.key ∉ toDeleteKeys cfg now (idbPut s rec)) :
    idbGet (cleanupOldEntries cfg now (idbPut s rec)) rec.key = some rec := by
  have hp : (!((toDeleteKeys cfg now (idbPut s rec)).contains rec.key)) = true := by
    rw [Bool.not_eq_true']
    rcases hc : (toDeleteKeys cfg now (idbPut s rec)).contains rec.key with _ | _
    · rfl
    · exact absurd (str_contains_iff.mp hc) hkeep
  rw [cleanupOldEntries, idbGet]
  generalize hM : toDeleteKeys cfg now (idbPut s rec) = M at hp ⊢
  rw [hM] at hkeep
  rw [show idbPut s rec = s.filter (fun r' => r'.key != rec.key) ++ [rec] from rfl,
    List.filter_append]
  rw [show List.filter (fun r => !(M.contains r.key)) [rec] = [rec] from by
    simp only [List.filter_cons, List.filter_nil, hp, if_true]]
  apply find?_key_append_singleton
  intro x hx
  have := (List.mem_filter.mp (List.mem_filter.mp hx).1).2
  simpa using this

/-! ## Claims about `get` and `set` on the store (C3, C4, C5) -/

/-- Claim C3: a stored record whose age at read time exceeds the expiry
window is treated as absent by `get` (the promise resolves with null) and
is removed from the store as a side effect of that read; a record whose
age does not exceed the window is returned unchanged, with the store left
intact. -/
theorem C3_get_expiry (cfg : Config) (now : Nat) (s : Store) (key : String)
    (r : CacheRecord) (hfound : idbGet s key = some r) :
    (isExpired cfg now r →
      (get cfg now s key).1 = none ∧ idbGet (get cfg now s key).2 key = none)
    ∧ (¬ isExpired cfg now r → get cfg now s key = (some r.tags, s)) := by
  constructor
  · intro hexp
    have h1 : get cfg now s key = (none, idbDelete s key) := by
      simp only [get, hfound, if_pos hexp]
    rw [h1]
    exact ⟨rfl, idbGet_idbDelete s key⟩
  · intro hfresh
    simp only [get, hfound, if_neg hfresh]

/-- Claim C3 witness: a record of age 300ms against a 100ms window is
reported absent and deleted; the same record read at age 50ms is
returned. -/
theorem C3_get_expiry_witness :
    idbGet [{ key := "a", tags := [{ name := "t", confidence := "c" }],
              timestamp := 0, size := 10 }] "a"
      = some { key := "a", tags := [{ name := "t", confidence := "c" }],
               timestamp := 0, size := 10 }
    ∧ isExpired { CACHE_EXPIRY_MS := 100, MAX_CACHE_SIZE := 5 } 300
        { key := "a", tags := [{ name := "t", confidence := "c" }],
          timestamp := 0, size := 10 }
    ∧ (get { CACHE_EXPIRY_MS := 100, MAX_CACHE_SIZE := 5 } 300
        [{ key := "a", tags := [{ name := "t", confidence := "c" }],
           timestamp := 0, size := 10 }] "a").1 = none
    ∧ idbGet (get { CACHE_EXPIRY_MS := 100, MAX_CACHE_SIZE := 5 } 300
        [{ key := "a", tags := [{ name := "t", confidence := "c" }],
           timestamp := 0, size := 10 }] "a").2 "a" = none
    ∧ get { CACHE_EXPIRY_MS := 100, MAX_CACHE_SIZE := 5 } 50
        [{ key := "a", tags := [{ name := "t", confidence := "c" }],
           timestamp := 0, size := 10 }] "a"
      = (some [{ name := "t", confidence := "c" }],
         [{ key := "a", tags := [{ name := "t", confidence := "c" }],
            timestamp := 0, size := 10 }]) := by
  refine ⟨by decide, by decide, ?_, ?_, ?_⟩
  · exact ((C3_get_expiry { CACHE_EXPIRY_MS := 100, MAX_CACHE_SIZE := 5 } 300
      [{ key := "a", tags := [{ name := "t", confidence := "c" }],
         timestamp := 0, size := 10 }] "a"
      { key := "a", tags := [{ name := "t", confidence := "c" }],
        timestamp := 0, size := 10 } (by decide)).1 (by decide)).1
  · exact ((C3_get_expiry { CACHE_EXPIRY_MS := 100, MAX_CACHE_SIZE := 5 } 300
      [{ key := "a", tags := [{ name := "t", confidence := "c" }],
         timestamp := 0, size := 10 }] "a"
      { key := "a", tags := [{ name := "t", confidence := "c" }],
        timestamp := 0, size := 10 } (by decide)).1 (by decide)).2
  · exact (C3_get_expiry { CACHE_EXPIRY_MS := 100, MAX_CACHE_SIZE := 5 } 50
      [{ key := "a", tags := [{ name := "t", confidence := "c" }],
         timestamp := 0, size := 10 }] "a"
      { key := "a", tags := [{ name := "t", confidence := "c" }],
        timestamp := 0, size := 10 } (by decide)).2 (by decide)

/-- Claim C4: a `set` whose input yields zero extractable tags persists
nothing — the method resolves with the store unchanged, a subsequent
`get` for the key still returns null when no prior record existed, and
(for any `set` whatsoever) no record with an empty tag sequence is ever
added to a store free of such records. -/
theorem C4_empty_tags_noop (cfg : Config) (now now2 : Nat) (pf : Bool) (s : Store)
    (key : String) (raw : DomParseOutcome) (hparse : parseTagData raw = []) :
    set cfg now pf s key raw = { outcome := Except.ok (), store := s }
    ∧ (idbGet s key = none →
        (get cfg now2 (set cfg now pf s key raw).store key).1 = none)
    ∧ (∀ (now3 : Nat) (pf3 : Bool) (key3 : String) (raw3 : DomParseOutcome),
        (∀ r ∈ s, r.tags ≠ []) →
        ∀ r ∈ (set cfg now3 pf3 s key3 raw3).store, r.tags ≠ []) := by
  have h1 : set cfg now pf s key raw = { outcome := Except.ok (), store := s } := by
    simp only [set, hparse]
    rfl
  refine ⟨h1, ?_, ?_⟩
  · intro hnone
    rw [h1]
    simp only [get, hnone]
  · intro now3 pf3 key3 raw3 hinv r hr
    rcases mem_set_store hr with h | ⟨rfl, hne⟩
    · exact hinv r h
    · exact hne

/-- Claim C4 witness: caching a response with no complete rows leaves the
store untouched and the key unoccupied. -/
theorem C4_empty_tags_noop_witness :
    parseTagData (.parsed [{ link := none, confidence := some "x" }]) = []
    ∧ idbGet [{ key := "b", tags := [{ name := "t", confidence := "c" }],
                timestamp := 0, size := 10 }] "a" = none
    ∧ set { CACHE_EXPIRY_MS := 100, MAX_CACHE_SIZE := 5 } 7 false
        [{ key := "b", tags := [{ name := "t", confidence := "c" }],
           timestamp := 0, size := 10 }] "a"
        (.parsed [{ link := none, confidence := some "x" }])
      = { outcome := Except.ok (),
          store := [{ key := "b", tags := [{ name := "t", confidence := "c" }],
                      timestamp := 0, size := 10 }] }
    ∧ (get { CACHE_EXPIRY_MS := 100, MAX_CACHE_SIZE := 5 } 9
        (set { CACHE_EXPIRY_MS := 100, MAX_CACHE_SIZE := 5 } 7 false
          [{ key := "b", tags := [{ name := "t", confidence := "c" }],
             timestamp := 0, size := 10 }] "a"
          (.parsed [{ link := none, confidence := some "x" }])).store "a").1 = none := by
  refine ⟨by decide, by decide, ?_, ?_⟩
  · exact (C4_empty_tags_noop { CACHE_EXPIRY_MS := 100, MAX_CACHE_SIZE := 5 } 7 9 false
      [{ key := "b", tags := [{ name := "t", confidence := "c" }],
         timestamp := 0, size := 10 }] "a"
      (.parsed [{ link := none, confidence := some "x" }]) (by decide)).1
  · exact (C4_empty_tags_noop { CACHE_EXPIRY_MS := 100, MAX_CACHE_SIZE := 5 } 7 9 false
      [{ key := "b", tags := [{ name := "t", confidence := "c" }],
         timestamp := 0, size := 10 }] "a"
      (.parsed [{ link := none, confidence := some "x" }]) (by decide)).2.1 (by decide)

/-- Claim C5: after a successful `set` that extracted the tag sequence
`parseTagData raw`, an immediate `get` of the same key — before the
expiry window elapses, with no intervening write and with the key not
evicted by the post-write sweep — returns exactly that sequence,
unchanged. -/
theorem C5_set_get_roundtrip (cfg : Config) (now now2 : Nat) (s : Store) (key : String)
    (raw : DomParseOutcome)
    (hne : parseTagData raw ≠ [])
    (hkeep : key ∉ toDeleteKeys cfg now (idbPut s (setRecord now key (parseTagData raw))))
    (hfresh : (now2 : Int) - (now : Int) ≤ (cfg.CACHE_EXPIRY_MS : Int)) :
    (get cfg now2 (set cfg now false s key raw).store key).1
      = some (parseTagData raw) := by
  have hlen : ¬ (parseTagData raw).length = 0 := by
    simpa [List.length_eq_zero] using hne
  have hstore : (set cfg now false s key raw).store
      = cleanupOldEntries cfg now (idbPut s (setRecord now key (parseTagData raw))) := by
    simp only [set, if_neg hlen]
    rfl
  rw [hstore]
  have hget : idbGet (cleanupOldEntries cfg now (idbPut s (setRecord now key
        (parseTagData raw)))) key = some (setRecord now key (parseTagData raw)) :=
    idbGet_cleanup_idbPut hkeep
  have hnotexp : ¬ isExpired cfg now2 (setRecord now key (parseTagData raw)) := by
    simp only [isExpired, setRecord, not_lt]
    exact hfresh
  simp only [get, hget, if_neg hnotexp]
  rfl

/-- Claim C5 witness: a one-tag response written at time 0 into an empty
store and read back at time 50 (window 100ms) returns its tag sequence. -/
theorem C5_set_get_roundtrip_witness :
    parseTagData (.parsed [{ link := some "a", confidence := some "1" }]) ≠ []
    ∧ "k" ∉ toDeleteKeys { CACHE_EXPIRY_MS := 100, MAX_CACHE_SIZE := 5 } 0
        (idbPut [] (setRecord 0 "k"
          (parseTagData (.parsed [{ link := some "a", confidence := some "1" }]))))
    ∧ ((50 : Int) - (0 : Int) ≤ ((100 : Nat) : Int))
    ∧ (get { CACHE_EXPIRY_MS := 100, MAX_CACHE_SIZE := 5 } 50
        (set { CACHE_EXPIRY_MS := 100, MAX_CACHE_SIZE := 5 } 0 false [] "k"
          (.parsed [{ link := some "a", confidence := some "1" }])).store "k").1
      = some [{ name := "a", confidence := "1" }] := by
  refine ⟨by decide, by decide, by decide, ?_⟩
  exact C5_set_get_roundtrip { CACHE_EXPIRY_MS := 100, MAX_CACHE_SIZE := 5 } 0 50 [] "k"
    (.parsed [{ link := some "a", confidence := some "1" }])
    (by decide) (by decide) (by decide)

/-! ## Helper lemmas about the eviction sweep -/

lemma not_contains_iff {l : List String} {a : String} : ((!(l.contains a)) = true) ↔ a ∉ l := by
  rw [Bool.not_eq_true']
  constructor
  · intro h hm
    rw [str_contains_iff.mpr hm] at h
    cases h
  · intro h
    rcases hc : l.contains a with _ | _
    · rfl
    · exact absurd (str_contains_iff.mp hc) h

lemma markDeletionsAux_sublist (cfg : Config) (now : Nat) (total : Nat) :
    ∀ (es : List CacheRecord) (i : Nat),
      (markDeletionsAux cfg now total i es).Sublist (es.map (fun r => r.key)) := by
  intro es
  induction es with
  | nil =>
    intro i
    simp [markDeletionsAux]
  | cons r rest ih =>
    intro i
    rw [List.map_cons]
    by_cases hexp : isExpired cfg now r
    · rw [markDeletionsAux, if_pos hexp]
      exact List.Sublist.cons₂ r.key (ih (i + 1))
    · rw [markDeletionsAux, if_neg hexp]
      by_cases hc : total > cfg.MAX_CACHE_SIZE ∧ i < total - cfg.MAX_CACHE_SIZE
      · rw [if_pos hc]
        exact List.Sublist.cons₂ r.key (ih (i + 1))
      · rw [if_neg hc]
        exact List.Sublist.cons r.key (ih (i + 1))

lemma mem_markDeletionsAux (cfg : Config) (now : Nat) (total : Nat) :
    ∀ (es : List CacheRecord) (i : Nat) (x : String),
      x ∈ markDeletionsAux cfg now total i es ↔
        (∃ r ∈ es, r.key = x ∧ isExpired cfg now r) ∨
        (total > cfg.MAX_CACHE_SIZE ∧
          x ∈ (es.map (fun r => r.key)).take (total - cfg.MAX_CACHE_SIZE - i)) := by
  intro es
  induction es with
  | nil =>
    intro i x
    simp [markDeletionsAux]
  | cons r rest ih =>
    intro i x
    by_cases hexp : isExpired cfg now r
    · rw [markDeletionsAux, if_pos hexp]
      rw [List.mem_cons, ih (i + 1), List.map_cons, List.exists_mem_cons_iff]
      rcases Nat.eq_zero_or_pos (total - cfg.MAX_CACHE_SIZE - i) with h0 | hpos
      · rw [h0, show total - cfg.MAX_CACHE_SIZE - (i + 1) = 0 from by omega]
        simp only [List.take_zero, List.not_mem_nil, and_false, or_false]
        constructor
        · rintro (rfl | hB)
          · exact Or.inl ⟨rfl, hexp⟩
          · exact Or.inr hB
        · rintro (⟨hk, -⟩ | hB)
          · exact Or.inl hk.symm
          · exact Or.inr hB
      · rw [show total - cfg.MAX_CACHE_SIZE - i
              = (total - cfg.MAX_CACHE_SIZE - (i + 1)) + 1 from by omega,
            List.take_succ_cons, List.mem_cons]
        constructor
        · rintro (rfl | (hB | ⟨hg, hd⟩))
          · exact Or.inl (Or.inl ⟨rfl, hexp⟩)
          · exact Or.inl (Or.inr hB)
          · exact Or.inr ⟨hg, Or.inr hd⟩
        · rintro ((⟨hk, -⟩ | hB) | ⟨hg, (rfl | hd)⟩)
          · exact Or.inl hk.symm
          · exact Or.inr (Or.inl hB)
          · exact Or.inl rfl
          · exact Or.inr (Or.inr ⟨hg, hd⟩)
    · rw [markDeletionsAux, if_neg hexp]
      by_cases hc : total > cfg.MAX_CACHE_SIZE ∧ i < total - cfg.MAX_CACHE_SIZE
      · rw [if_pos hc, List.mem_cons, ih (i + 1), List.map_cons, List.exists_mem_cons_iff]
        rw [show total - cfg.MAX_CACHE_SIZE - i
              = (total - cfg.MAX_CACHE_SIZE - (i + 1)) + 1 from by omega,
            List.take_succ_cons, List.mem_cons]
        constructor
        · rintro (rfl | (hB | ⟨hg, hd⟩))
          · exact Or.inr ⟨hc.1, Or.inl rfl⟩
          · exact Or.inl (Or.inr hB)
          · exact Or.inr ⟨hg, Or.inr hd⟩
        · rintro ((⟨-, he⟩ | hB) | ⟨hg, (rfl | hd)⟩)
          · exact absurd he hexp
          · exact Or.inr (Or.inl hB)
          · exact Or.inl rfl
          · exact Or.inr (Or.inr ⟨hg, hd⟩)
      · rw [if_neg hc, ih (i + 1), List.map_cons, List.exists_mem_cons_iff]
        by_cases hg : total > cfg.MAX_CACHE_SIZE
        · rw [show total - cfg.MAX_CACHE_SIZE - i = 0 from by omega,
              show total - cfg.MAX_CACHE_SIZE - (i + 1) = 0 from by omega]
          simp only [List.take_zero, List.not_mem_nil, and_false, or_false]
          constructor
          · exact fun hB => Or.inr hB
          · rintro (⟨-, he⟩ | hB)
            · exact absurd he hexp
            · exact hB
        · simp only [hg, false_and, or_false]
          constructor
          · exact fun hB => Or.inr hB
          · rintro (⟨-, he⟩ | hB)
            · exact absurd he hexp
            · exact hB

lemma filter_not_mem_take {α β : Type} [DecidableEq β] (f : α → β) :
    ∀ (l : List α) (k : Nat), (l.map f).Nodup →
      l.filter (fun r => !(decide (f r ∈ (l.map f).take k))) = l.drop k := by
  intro l
  induction l with
  | nil =>
    intro k _
    simp
  | cons a t ih =>
    intro k hnd
    rw [List.map_cons, List.nodup_cons] at hnd
    obtain ⟨hfa, hnd'⟩ := hnd
    cases k with
    | zero =>
      simp
    | succ k' =>
      rw [List.map_cons, List.take_succ_cons, List.drop_succ_cons, List.filter_cons]
      have hhead : (!(decide (f a ∈ f a :: (t.map f).take k'))) = false := by
        simp
      rw [hhead]
      simp only [Bool.false_eq_true, if_false]
      have hcong : ∀ r ∈ t, (!(decide (f r ∈ f a :: (t.map f).take k')))
          = (!(decide (f r ∈ (t.map f).take k'))) := by
        intro r hr
        have hne : f r ≠ f a := fun he => hfa (he ▸ List.mem_map_of_mem f hr)
        simp [List.mem_cons, hne]
      rw [List.filter_congr hcong, ih k' hnd']

/-! ## Claim about the eviction sweep (C1) -/

/-- Claim C1: over the pre-sweep snapshot iterated oldest-first, the
sweep marks exactly the union of (a) the keys of expired records and
(b) the keys of the first `max(0, n - maxEntries)` records of the
iteration, each key at most once, and the post-sweep store is the
snapshot minus exactly the marked keys; in particular, with
`maxEntries + k` non-expired records of distinct ascending timestamps
the sweep removes exactly the `k` oldest and keeps the `maxEntries`
newest. -/
theorem C1_eviction_sweep (cfg : Config) (now : Nat) (s : Store)
    (hkeys : (s.map (fun r => r.key)).Nodup) :
    (∀ x : String, x ∈ toDeleteKeys cfg now s ↔
        (∃ r ∈ iterateByTimestamp s, r.key = x ∧ isExpired cfg now r) ∨
        x ∈ ((iterateByTimestamp s).take
              ((iterateByTimestamp s).length - cfg.MAX_CACHE_SIZE)).map (fun r => r.key))
    ∧ (toDeleteKeys cfg now s).Nodup
    ∧ (∀ r : CacheRecord, r ∈ cleanupOldEntries cfg now s ↔
          r ∈ s ∧ r.key ∉ toDeleteKeys cfg now s)
    ∧ (∀ k : Nat, (iterateByTimestamp s).length = cfg.MAX_CACHE_SIZE + k →
        (∀ r ∈ iterateByTimestamp s, ¬ isExpired cfg now r) →
        (iterateByTimestamp s).Pairwise (fun a b => a.timestamp < b.timestamp) →
        (cleanupOldEntries cfg now s).Perm ((iterateByTimestamp s).drop k)
        ∧ ∀ r ∈ (iterateByTimestamp s).take k, r.key ∈ toDeleteKeys cfg now s) := by
  set es := iterateByTimestamp s with hes
  have hperm : es.Perm s := List.perm_insertionSort cursorLE s
  have hkes : (es.map (fun r => r.key)).Nodup :=
    ((hperm.map (fun r => r.key)).nodup_iff).mpr hkeys
  have hmem0 : ∀ x : String, x ∈ toDeleteKeys cfg now s ↔
      (∃ r ∈ es, r.key = x ∧ isExpired cfg now r) ∨
      (es.length > cfg.MAX_CACHE_SIZE ∧
        x ∈ (es.map (fun r => r.key)).take (es.length - cfg.MAX_CACHE_SIZE)) := by
    intro x
    have h := mem_markDeletionsAux cfg now es.length es 0 x
    rw [Nat.sub_zero] at h
    exact h
  have hmem1 : ∀ x : String, x ∈ toDeleteKeys cfg now s ↔
      (∃ r ∈ es, r.key = x ∧ isExpired cfg now r) ∨
      x ∈ (es.take (es.length - cfg.MAX_CACHE_SIZE)).map (fun r => r.key) := by
    intro x
    rw [hmem0 x]
    constructor
    · rintro (h | ⟨-, hx⟩)
      · exact Or.inl h
      · rw [← List.map_take] at hx
        exact Or.inr hx
    · rintro (h | hx)
      · exact Or.inl h
      · rw [List.map_take] at hx
        by_cases hg : es.length > cfg.MAX_CACHE_SIZE
        · exact Or.inr ⟨hg, hx⟩
        · rw [show es.length - cfg.MAX_CACHE_SIZE = 0 from by omega, List.take_zero] at hx
          exact absurd hx (List.not_mem_nil x)
  refine ⟨hmem1, ?_, ?_, ?_⟩
  · exact List.Nodup.sublist (markDeletionsAux_sublist cfg now es.length es 0) hkes
  · intro r
    rw [cleanupOldEntries, List.mem_filter, ← not_contains_iff]
  · intro k hk hfresh hdist
    have hmem2 : ∀ x : String, x ∈ toDeleteKeys cfg now s ↔
        x ∈ (es.map (fun r => r.key)).take k := by
      intro x
      rw [hmem0 x]
      constructor
      · rintro (⟨r, hr, -, he⟩ | ⟨-, hx⟩)
        · exact absurd he (hfresh r hr)
        · rwa [show es.length - cfg.MAX_CACHE_SIZE = k from by omega] at hx
      · intro hx
        by_cases hk0 : k = 0
        · rw [hk0, List.take_zero] at hx
          exact absurd hx (List.not_mem_nil x)
        · exact Or.inr ⟨by omega, by
            rwa [show es.length - cfg.MAX_CACHE_SIZE = k from by omega]⟩
    constructor
    · have hcl : cleanupOldEntries cfg now s
          = s.filter (fun r => !((toDeleteKeys cfg now s).contains r.key)) := rfl
      rw [hcl]
      have hup : (s.filter (fun r => !((toDeleteKeys cfg now s).contains r.key))).Perm
          (es.filter (fun r => !((toDeleteKeys cfg now s).contains r.key))) :=
        (List.Perm.filter (fun r => !((toDeleteKeys cfg now s).contains r.key)) hperm).symm
      have hcong : ∀ r ∈ es, (!((toDeleteKeys cfg now s).contains r.key))
          = (!(decide (r.key ∈ (es.map (fun r => r.key)).take k))) := by
        intro r hr
        by_cases hm : r.key ∈ toDeleteKeys cfg now s
        · have h2 := (hmem2 r.key).mp hm
          rw [str_contains_iff.mpr hm, decide_eq_true h2]
        · have h1 : (toDeleteKeys cfg now s).contains r.key = false := by
            rcases hc : (toDeleteKeys cfg now s).contains r.key with _ | _
            · rfl
            · exact absurd (str_contains_iff.mp hc) hm
          have h2 : r.key ∉ (es.map (fun r => r.key)).take k :=
            fun hc => hm ((hmem2 r.key).mpr hc)
          rw [h1, decide_eq_false h2]
      have hfil : es.filter (fun r => !((toDeleteKeys cfg now s).contains r.key))
          = es.drop k := by
        rw [List.filter_congr hcong]
        exact filter_not_mem_take (fun r => r.key) es k hkes
      rw [hfil] at hup
      exact hup
    · intro r hr
      apply (hmem2 r.key).mpr
      rw [← List.map_take]
      exact List.mem_map_of_mem (fun r => r.key) hr

/-- Claim C1 witness: with `maxEntries = 2` and three fresh records of
timestamps 0, 10, 20 under unique keys, the sweep deletes exactly the
oldest record and keeps the two newest. -/
theorem C1_eviction_sweep_witness :
    (([{ key := "c", tags := [], timestamp := 20, size := 1 },
       { key := "a", tags := [], timestamp := 0, size := 1 },
       { key := "b", tags := [], timestamp := 10, size := 1 }] : Store).map
        (fun r => r.key)).Nodup
    ∧ (iterateByTimestamp
        [{ key := "c", tags := [], timestamp := 20, size := 1 },
         { key := "a", tags := [], timestamp := 0, size := 1 },
         { key := "b", tags := [], timestamp := 10, size := 1 }]).length
      = ({ CACHE_EXPIRY_MS := 100, MAX_CACHE_SIZE := 2 } : Config).MAX_CACHE_SIZE + 1
    ∧ (∀ r ∈ iterateByTimestamp
        [{ key := "c", tags := [], timestamp := 20, size := 1 },
         { key := "a", tags := [], timestamp := 0, size := 1 },
         { key := "b", tags := [], timestamp := 10, size := 1 }],
        ¬ isExpired { CACHE_EXPIRY_MS := 100, MAX_CACHE_SIZE := 2 } 50 r)
    ∧ (iterateByTimestamp
        [{ key := "c", tags := [], timestamp := 20, size := 1 },
         { key := "a", tags := [], timestamp := 0, size := 1 },
         { key := "b", tags := [], timestamp := 10, size := 1 }]).Pairwise
        (fun a b => a.timestamp < b.timestamp)
    ∧ (cleanupOldEntries { CACHE_EXPIRY_MS := 100, MAX_CACHE_SIZE := 2 } 50
        [{ key := "c", tags := [], timestamp := 20, size := 1 },
         { key := "a", tags := [], timestamp := 0, size := 1 },
         { key := "b", tags := [], timestamp := 10, size := 1 }]).Perm
        ((iterateByTimestamp
          [{ key := "c", tags := [], timestamp := 20, size := 1 },
           { key := "a", tags := [], timestamp := 0, size := 1 },
           { key := "b", tags := [], timestamp := 10, size := 1 }]).drop 1)
    ∧ (∀ r ∈ (iterateByTimestamp
          [{ key := "c", tags := [], timestamp := 20, size := 1 },
           { key := "a", tags := [], timestamp := 0, size := 1 },
           { key := "b", tags := [], timestamp := 10, size := 1 }]).take 1,
        r.key ∈ toDeleteKeys { CACHE_EXPIRY_MS := 100, MAX_CACHE_SIZE := 2 } 50
          [{ key := "c", tags := [], timestamp := 20, size := 1 },
           { key := "a", tags := [], timestamp := 0, size := 1 },
           { key := "b", tags := [], timestamp := 10, size := 1 }]) := by
  have h := C1_eviction_sweep { CACHE_EXPIRY_MS := 100, MAX_CACHE_SIZE := 2 } 50
    [{ key := "c", tags := [], timestamp := 20, size := 1 },
     { key := "a", tags := [], timestamp := 0, size := 1 },
     { key := "b", tags := [], timestamp := 10, size := 1 }] (by decide)
  have h4 := h.2.2.2 1 (by decide) (by decide) (by decide)
  exact ⟨by decide, by decide, by decide, by decide, h4.1, h4.2⟩

/-! ## Claim about key derivation (C8) -/

lemma toInt32_range (n : Int) : -(2 ^ 31) ≤ toInt32 n ∧ toInt32 n < 2 ^ 31 := by
  rw [toInt32]
  have h1 : 0 ≤ (n + 2 ^ 31) % 2 ^ 32 := Int.emod_nonneg _ (by norm_num)
  have h2 : (n + 2 ^ 31) % 2 ^ 32 < 2 ^ 32 := Int.emod_lt_of_pos _ (by norm_num)
  rw [show ((2 : Int) ^ 31) = 2147483648 from by norm_num] at *
  rw [show ((2 : Int) ^ 32) = 4294967296 from by norm_num] at *
  omega

lemma foldl_hashStep_range :
    ∀ (l : List Nat) (h : Int), -(2 ^ 31) ≤ h → h < 2 ^ 31 →
      -(2 ^ 31) ≤ l.foldl hashStep h ∧ l.foldl hashStep h < 2 ^ 31 := by
  intro l
  induction l with
  | nil =>
    intro h h1 h2
    exact ⟨h1, h2⟩
  | cons c t ih =>
    intro h h1 h2
    rw [List.foldl_cons]
    exact ih (hashStep h c) (toInt32_range _).1 (toInt32_range _).2

/-- Claim C8: key derivation is a total deterministic function; for
every URL (the empty string included) the result is the fixed namespace
prefix followed by the decimal rendering of the absolute value of the
32-bit rolling hash of the URL, a number of magnitude at most `2^31` —
no error conditions exist and the empty string maps to the stable key
`litd_0`. -/
theorem C8_generateKey (u : String) :
    generateKey u = generateKey u
    ∧ (∃ n : Nat, n ≤ 2 ^ 31 ∧ n = (hashString u).natAbs
        ∧ generateKey u = "litd_" ++ toString n)
    ∧ generateKey "" = "litd_0" := by
  refine ⟨rfl, ⟨(hashString u).natAbs, ?_, rfl, rfl⟩, by decide⟩
  have hr := foldl_hashStep_range (utf16Units u) 0 (by norm_num) (by norm_num)
  have hr' : -(2 ^ 31) ≤ hashString u ∧ hashString u < 2 ^ 31 := hr
  rw [show ((2 : Int) ^ 31) = 2147483648 from by norm_num] at hr'
  rw [show ((2 : Nat) ^ 31) = 2147483648 from by norm_num]
  omega

/-! ## Claims about `getStats` (C9, C10) -/

lemma foldl_min_comm : ∀ (l : List Nat) (a b : Nat),
    l.foldl min (min a b) = min a (l.foldl min b) := by
  intro l
  induction l with
  | nil =>
    intro a b
    rfl
  | cons c t ih =>
    intro a b
    rw [List.foldl_cons, List.foldl_cons, min_assoc, ih]

lemma oldestOf_eq {m : Nat} (now : Nat) (s : Store)
    (hm : (s.map (fun r => r.timestamp)).min? = some m) :
    oldestOf now s = min now m := by
  have h0 : oldestOf now s = (s.map (fun r => r.timestamp)).foldl min now := by
    rw [oldestOf]
    exact (List.foldl_map (fun r : CacheRecord => r.timestamp) min s now).symm
  cases hmap : s.map (fun r => r.timestamp) with
  | nil =>
    rw [hmap] at hm
    cases hm
  | cons x t =>
    rw [hmap] at h0 hm
    rw [show (x :: t).min? = some (t.foldl min x) from rfl] at hm
    have hm' : t.foldl min x = m := Option.some_inj.mp hm
    rw [h0, List.foldl_cons, foldl_min_comm t now x, hm']

/-- Claim C9: `getStats` reports an entry count equal to the number of
stored records, a `totalSizeKB` string rendering a hundredths value
within 1/200 KB of the exact sum of the recorded sizes divided by 1024,
and (whenever the stored minimum timestamp does not exceed the clock) an
oldest-entry age derived from the minimum stored timestamp, under the
field names `entries`, `totalSizeKB` and `oldestEntryAge`. -/
theorem C9_getStats_accuracy (now : Nat) (s : Store) :
    (getStats now s).entries = s.length
    ∧ (∃ n : Nat,
        (getStats now s).totalSizeKB
          = JsVal.str (toString (n / 100) ++ "." ++ pad2 (n % 100))
        ∧ |(n : ℚ) / 100 - (totalSizeOf s : ℚ) / 1024| ≤ 1 / 200)
    ∧ (∀ m : Nat, (s.map (fun r => r.timestamp)).min? = some m → m ≤ now →
        (getStats now s).oldestEntryAge = (now - m) / (1000 * 60 * 60 * 24)) := by
  refine ⟨rfl, ⟨(200 * totalSizeOf s + 1024) / 2048, rfl, ?_⟩, ?_⟩
  · have hb1 : 1024 * ((200 * totalSizeOf s + 1024) / 2048)
        ≤ 100 * totalSizeOf s + 512 := by omega
    have hb2 : 100 * totalSizeOf s
        ≤ 1024 * ((200 * totalSizeOf s + 1024) / 2048) + 511 := by omega
    have c1 : (1024 : ℚ) * ((200 * totalSizeOf s + 1024) / 2048 : Nat)
        ≤ 100 * (totalSizeOf s : ℚ) + 512 := by exact_mod_cast hb1
    have c2 : (100 : ℚ) * (totalSizeOf s : ℚ)
        ≤ 1024 * ((200 * totalSizeOf s + 1024) / 2048 : Nat) + 511 := by exact_mod_cast hb2
    rw [abs_le]
    constructor
    · linarith
    · linarith
  · intro m hm hle
    show (now - oldestOf now s) / (1000 * 60 * 60 * 24) = (now - m) / (1000 * 60 * 60 * 24)
    rw [oldestOf_eq now s hm, min_eq_right hle]

/-- Claim C9 witness: a two-record store of total size 300 bytes and
minimum timestamp 5 read at time 10. -/
theorem C9_getStats_accuracy_witness :
    (getStats 10 [{ key := "a", tags := [], timestamp := 5, size := 100 },
                  { key := "b", tags := [], timestamp := 8, size := 200 }]).entries = 2
    ∧ (([{ key := "a", tags := [], timestamp := 5, size := 100 },
         { key := "b", tags := [], timestamp := 8, size := 200 }] : Store).map
          (fun r => r.timestamp)).min? = some 5
    ∧ (5 : Nat) ≤ 10
    ∧ (getStats 10 [{ key := "a", tags := [], timestamp := 5, size := 100 },
                    { key := "b", tags := [], timestamp := 8, size := 200 }]).oldestEntryAge
      = (10 - 5) / (1000 * 60 * 60 * 24) := by
  refine ⟨?_, by decide, by decide, ?_⟩
  · exact (C9_getStats_accuracy 10
      [{ key := "a", tags := [], timestamp := 5, size := 100 },
       { key := "b", tags := [], timestamp := 8, size := 200 }]).1
  · exact (C9_getStats_accuracy 10
      [{ key := "a", tags := [], timestamp := 5, size := 100 },
       { key := "b", tags := [], timestamp := 8, size := 200 }]).2.2 5 (by decide) (by decide)

/-- Claim C10: on an empty store the success path of `getStats` resolves
with entry count 0, the *string* value formatted as two-decimal
kilobytes for size 0, and an oldest-entry age of 0 (the minimum-age
baseline starts at the current clock), whereas the storage-error
fallback resolves with the *number* 0 in the size field — a different
value. -/
theorem C10_getStats_empty (now : Nat) :
    getStats now ([] : Store)
      = { entries := 0, totalSizeKB := JsVal.str "0.00", oldestEntryAge := 0 }
    ∧ getStatsFallback = { entries := 0, totalSizeKB := JsVal.num 0, oldestEntryAge := 0 }
    ∧ JsVal.str "0.00" ≠ JsVal.num 0 := by
  refine ⟨?_, rfl, by decide⟩
  have h1 : getStats now ([] : Store)
      = { entries := 0, totalSizeKB := JsVal.str (toFixed2KB 0),
          oldestEntryAge := (now - now) / (1000 * 60 * 60 * 24) } := rfl
  rw [h1, Nat.sub_self, Nat.zero_div]
  decide

end LITD
